import Mathlib

/-!
Verification of the BTC-Parachain SPV relay core against its specification.

The development shallowly embeds the two source files of the repository:

* `src/crates/bitcoin/src/merkle.rs` — the partial-merkle-tree proof parser
  and verifier (`MerkleProof`), and
* `src/crates/btc-relay/src/lib.rs` — the relay pallet (header store, chain
  index, fork choice / reorg engine).

Conventions of the embedding:

* Machine integers (`u32`, byte values, 256-bit hashes) are modelled as `Nat`.
  Every arithmetic operation of the source that Rust performs with a checked
  primitive (`checked_add`) is modelled with the explicit overflow test; the
  remaining arithmetic in the verified paths stays far below `2^32` (the
  merkle verifier first bounds `transactions_count` by `16666`, so tree
  heights stay below `16` and all intermediate sums below `2^32`), so plain
  `Nat` arithmetic agrees with the `u32` arithmetic of the source there.
* A Rust `panic` (out-of-bounds index or slice, `Option::unwrap` on `None`)
  is modelled by the `none` case of an `Option` result, or by a dedicated
  `crash` constructor of a result type.
* The external hash primitives (`hash256_merkle_step` from `bitcoin_spv`,
  and the double-SHA256 header digest) are abstracted as function parameters
  `hashStep : Nat → Nat → Nat` and `dsha : List Nat → Nat`; no claim below
  depends on their values.
* Substrate storage: a `map` is modelled as a function into `Option`, where
  `get` on a missing key yields the `Default` value (as the Substrate
  storage getters do) and `mutate` reads the current (or default) value,
  applies the closure to it, and writes the result back.  The `Chains`
  `linked_map`, whose keys are the positions `0, 1, 2, …` of chain ids in
  the ordering index, is modelled as a `List Nat` of chain ids indexed by
  position: `enumerate` yields the entries in ascending key order and
  `head()` is the most recently inserted (largest) key, matching the
  source's own reading of the map as a position-indexed table ("swap the
  element with the last element in the mapping").
-/

/-! ## Merkle proof verifier, from `src/crates/bitcoin/src/merkle.rs` -/

/-- Constant from `merkle.rs`: `MAX_BLOCK_WEIGHT`. -/
def MAX_BLOCK_WEIGHT : Nat := 4000000

/-- Constant from `merkle.rs`: `WITNESS_SCALE_FACTOR`. -/
def WITNESS_SCALE_FACTOR : Nat := 4

/-- Constant from `merkle.rs`: `MIN_TRANSACTION_WEIGHT = WITNESS_SCALE_FACTOR * 60`. -/
def MIN_TRANSACTION_WEIGHT : Nat := WITNESS_SCALE_FACTOR * 60

/-- Constant from `merkle.rs`: `MAX_TRANSACTIONS_IN_PROOF = MAX_BLOCK_WEIGHT / MIN_TRANSACTION_WEIGHT` (= 16666). -/
def MAX_TRANSACTIONS_IN_PROOF : Nat := MAX_BLOCK_WEIGHT / MIN_TRANSACTION_WEIGHT

/-- Modelled from the spec: the `Error` variants of `bitcoin::types` used by
`merkle.rs` (the `types` module is not under `src/`); §4.3 distinguishes a
*malformed* proof from an *invalid* proof. -/
inductive MerkleError where
  | malformedProof
  | invalidProof
deriving DecidableEq, Repr

/-- Modelled from the spec: `BlockHeader` of `bitcoin::types` (not under
`src/`), per spec §3 — all fields are integers here; `block_hash` is the
derived double-hash of the 80 serialized bytes, computed at parse time. -/
structure BlockHeader where
  version : Nat
  hash_prev_block : Nat
  merkle_root : Nat
  timestamp : Nat
  target : Nat
  nonce : Nat
  block_hash : Nat
deriving DecidableEq, Repr

/-- `MerkleProof` struct from `merkle.rs`. -/
structure MerkleProof where
  block_header : BlockHeader
  transactions_count : Nat
  hashes : List Nat
  flag_bits : List Bool
deriving DecidableEq, Repr

/-- `MerkleProofTraversal` struct from `merkle.rs`.  The `flagged_leaves`
field is ghost instrumentation absent from the source: it counts how many
times the traversal executes the source's
`traversal.merkle_position = Some(pos)` recording step (a flagged leaf), and
influences nothing else. -/
structure MerkleProofTraversal where
  bits_used : Nat
  hashes_used : Nat
  merkle_position : Option Nat
  hash_position : Option Nat
  flagged_leaves : Nat
deriving DecidableEq, Repr

/-- `ProofResult` struct from `merkle.rs`. -/
structure ProofResult where
  extracted_root : Nat
  transaction_hash : Nat
  transaction_position : Nat
deriving DecidableEq, Repr

/-- Result of `traverse_and_extract`: `crash` models a Rust panic
(out-of-bounds `flag_bits` index). -/
inductive TravOut where
  | ok (hash : Nat) (t : MerkleProofTraversal)
  | fail (e : MerkleError)
  | crash
deriving DecidableEq, Repr

/-- Result of `verify_proof`: `crash` models a Rust panic. -/
inductive VerifyOut where
  | ok (r : ProofResult)
  | fail (e : MerkleError)
  | crash
deriving DecidableEq, Repr

/-- `MerkleProof::compute_tree_width`: `(transactions_count + (1 << height) - 1) >> height`. -/
def MerkleProof.compute_tree_width (p : MerkleProof) (height : Nat) : Nat :=
  (p.transactions_count + 2 ^ height - 1) / 2 ^ height

/-- Loop of `MerkleProof::compute_tree_height`: increment `height` while the
width at `height` exceeds one. -/
def MerkleProof.compute_tree_height_from (p : MerkleProof) (height : Nat) : Nat :=
  if p.compute_tree_width height > 1 then p.compute_tree_height_from (height + 1) else height
termination_by p.transactions_count - 2 ^ height
decreasing_by
  rename_i h
  unfold MerkleProof.compute_tree_width at h
  have h2 : 0 < 2 ^ height := Nat.pos_pow_of_pos height (by decide)
  have hle : 2 * 2 ^ height ≤ p.transactions_count + 2 ^ height - 1 :=
    (Nat.le_div_iff_mul_le h2).mp (by omega)
  have _hpow : 2 ^ (height + 1) = 2 * 2 ^ height := by
    rw [Nat.pow_succ]; ring
  omega

/-- `MerkleProof::compute_tree_height`. -/
def MerkleProof.compute_tree_height (p : MerkleProof) : Nat :=
  p.compute_tree_height_from 0

/-- `MerkleProof::traverse_and_extract`, the depth-first traversal of the
partial merkle tree.  `hashStep` abstracts `hash256_merkle_step`.  The
source indexes `self.flag_bits[traversal.bits_used]` without a bounds
check; running out of flag bits is therefore a `crash` (panic). -/
def MerkleProof.traverse_and_extract (hashStep : Nat → Nat → Nat) (p : MerkleProof) :
    Nat → Nat → MerkleProofTraversal → TravOut
  | height, pos, t =>
    match p.flag_bits[t.bits_used]? with
    | none => .crash
    | some parent_of_hash =>
      let t1 : MerkleProofTraversal := { t with bits_used := t.bits_used + 1 }
      if _hleaf : height = 0 ∨ parent_of_hash = false then
        if t1.hashes_used ≥ p.hashes.length then .fail .malformedProof
        else
          match p.hashes[t1.hashes_used]? with
          | none => .crash
          | some hash =>
            let t2 : MerkleProofTraversal :=
              if height = 0 ∧ parent_of_hash = true then
                { t1 with merkle_position := some pos,
                          hash_position := some t1.hashes_used,
                          flagged_leaves := t1.flagged_leaves + 1 }
              else t1
            .ok hash { t2 with hashes_used := t2.hashes_used + 1 }
      else
        match p.traverse_and_extract hashStep (height - 1) (pos * 2) t1 with
        | .crash => .crash
        | .fail e => .fail e
        | .ok left t2 =>
          if pos * 2 + 1 < p.compute_tree_width (height - 1) then
            match p.traverse_and_extract hashStep (height - 1) (pos * 2 + 1) t2 with
            | .crash => .crash
            | .fail e => .fail e
            | .ok right t3 => .ok (hashStep left right) t3
          else
            .ok (hashStep left left) t2
termination_by height _ _ => height
decreasing_by
  all_goals omega

/-- Initial `MerkleProofTraversal` value built at the top of `verify_proof`. -/
def initial_traversal : MerkleProofTraversal :=
  { bits_used := 0, hashes_used := 0, merkle_position := none,
    hash_position := none, flagged_leaves := 0 }

/-- The root traversal performed inside `verify_proof`:
`traverse_and_extract(compute_tree_height(), 0, &mut traversal)`. -/
def MerkleProof.root_traversal (hashStep : Nat → Nat → Nat) (p : MerkleProof) : TravOut :=
  p.traverse_and_extract hashStep p.compute_tree_height 0 initial_traversal

/-- `MerkleProof::verify_proof` from `merkle.rs`, check for check. -/
def MerkleProof.verify_proof (hashStep : Nat → Nat → Nat) (p : MerkleProof) : VerifyOut :=
  if p.transactions_count = 0 then .fail .malformedProof
  else if p.transactions_count > MAX_TRANSACTIONS_IN_PROOF then .fail .malformedProof
  else if p.flag_bits.length < p.hashes.length then .fail .malformedProof
  else
    match p.root_traversal hashStep with
    | .crash => .crash
    | .fail e => .fail e
    | .ok root t =>
      match t.merkle_position with
      | none => .fail .invalidProof
      | some merkle_position =>
        match t.hash_position with
        | none => .fail .invalidProof
        | some hash_position =>
          if t.hashes_used ≠ p.hashes.length then .fail .malformedProof
          else if (t.bits_used + 7) / 8 ≠ (p.flag_bits.length + 7) / 8 then .fail .malformedProof
          else
            match p.hashes[hash_position]? with
            | none => .crash
            | some h => .ok ⟨root, h, merkle_position⟩

/-! ### Wire-format parsing (`MerkleProof::parse`) -/

/-- Rust slice `&bs[lo..hi]`: `none` models the bounds-check panic. -/
def rslice (bs : List Nat) (lo hi : Nat) : Option (List Nat) :=
  if lo ≤ hi ∧ hi ≤ bs.length then some ((bs.drop lo).take (hi - lo)) else none

/-- `H256Le::from_bytes_le`: little-endian bytes to an integer. -/
def h256_from_bytes_le (bs : List Nat) : Nat :=
  bs.foldr (fun b acc => acc * 256 + b) 0

/-- `u32::from_le_bytes` on a 4-byte little-endian buffer. -/
def u32_from_le_bytes (bs : List Nat) : Nat :=
  h256_from_bytes_le bs

/-- Modelled from the spec: compact "bits" decoding of the proof-of-work
target (spec §3): a byte exponent and a 3-byte mantissa,
`target = mantissa * 256^(exponent-3)`.  The mantissa's sign-bit quirk is a
fact about the encoding side and does not change this value map. -/
def decode_compact_target (bits : Nat) : Nat :=
  let exponent := bits / 2 ^ 24
  let mantissa := bits % 2 ^ 24
  if exponent ≤ 3 then mantissa / 2 ^ (8 * (3 - exponent))
  else mantissa * 2 ^ (8 * (exponent - 3))

/-- Modelled from the spec: `parse_block_header` of the bitcoin crate's
`parser` module (not under `src/`), per the 80-byte layout of spec §6
(4-byte version, 32-byte previous hash, 32-byte merkle root, 4-byte time,
4-byte bits, 4-byte nonce, all little-endian) and §3 (`block_hash` is the
double-hash of the 80 bytes, abstracted as `dsha`). -/
def parse_block_header (dsha : List Nat → Nat) (bs : List Nat) : BlockHeader :=
  { version := u32_from_le_bytes ((bs.drop 0).take 4)
    hash_prev_block := h256_from_bytes_le ((bs.drop 4).take 32)
    merkle_root := h256_from_bytes_le ((bs.drop 36).take 32)
    timestamp := u32_from_le_bytes ((bs.drop 68).take 4)
    target := decode_compact_target (u32_from_le_bytes ((bs.drop 72).take 4))
    nonce := u32_from_le_bytes ((bs.drop 76).take 4)
    block_hash := dsha bs }

/-- Modelled from the spec: `parse_varint` of the bitcoin crate's `parser`
module (not under `src/`).  Per the wire-format documentation in
`merkle.rs` a varint here occupies 1–3 bytes: a first byte below `0xfd` is
the value itself, and `0xfd` prefixes a two-byte little-endian value.
Wider prefixes (`0xfe`, `0xff`) would read past the 3-byte window the
caller passes, modelled as a bounds panic (`none`); an empty slice panics
on its first index. -/
def parse_varint (bs : List Nat) : Option (Nat × Nat) :=
  match bs with
  | [] => none
  | b0 :: rest =>
    if b0 < 253 then some (1, b0)
    else if b0 = 253 then
      match rest with
      | b1 :: b2 :: _ => some (3, b1 + 256 * b2)
      | _ => none
    else none

/-- Hash-reading loop of `MerkleProof::parse`: read `n` 32-byte slices
starting at `current_index` (a short buffer panics the slice), convert each
with `from_bytes_le`, and return the hashes together with the index after
them. -/
def parse_proof_hashes (mp : List Nat) : Nat → Nat → Option (List Nat × Nat)
  | current_index, 0 => some ([], current_index)
  | current_index, n + 1 =>
    match rslice mp current_index (current_index + 32) with
    | none => none
    | some raw =>
      match parse_proof_hashes mp (current_index + 32) n with
      | none => none
      | some (rest, after) => some (h256_from_bytes_le raw :: rest, after)

/-- Expand one flag byte to 8 bits, least-significant bit first
(`(byte & (1 << i)) != 0` for `i = 0..8`). -/
def byte_to_bits (b : Nat) : List Bool :=
  (List.range 8).map (fun i => b / 2 ^ i % 2 = 1)

/-- Flag-byte reading loop of `MerkleProof::parse`: read `n` bytes starting
at `current_index` (an out-of-range index panics) and expand each to 8
bits. -/
def parse_proof_flags (mp : List Nat) : Nat → Nat → Option (List Bool)
  | _, 0 => some []
  | current_index, n + 1 =>
    match mp[current_index]? with
    | none => none
    | some b =>
      match parse_proof_flags mp (current_index + 1) n with
      | none => none
      | some rest => some (byte_to_bits b ++ rest)

/-- `MerkleProof::parse` from `merkle.rs`, step for step: 80-byte header
slice, 4-byte transaction count, varint hash count, 32-byte hashes, varint
flag-byte count (parsed from a window capped at 3 bytes by
`min(current_index + 3, len)`), flag bytes expanded to bits.  The function
returns the proof directly in the source (no error path); every slice or
index taken out of bounds is a panic, modelled as `none`. -/
def MerkleProof.parse (dsha : List Nat → Nat) (merkle_proof : List Nat) : Option MerkleProof :=
  match rslice merkle_proof 0 80 with
  | none => none
  | some header_bytes =>
    let header := parse_block_header dsha header_bytes
    match rslice merkle_proof 80 84 with
    | none => none
    | some tc_bytes =>
      match rslice merkle_proof 84 87 with
      | none => none
      | some vslice =>
        match parse_varint vslice with
        | none => none
        | some (bytes_consumed, hashes_count) =>
          let current_index := bytes_consumed + 84
          match parse_proof_hashes merkle_proof current_index hashes_count with
          | none => none
          | some (hashes, ci) =>
            let last_byte := min (ci + 3) merkle_proof.length
            match rslice merkle_proof ci last_byte with
            | none => none
            | some fslice =>
              match parse_varint fslice with
              | none => none
              | some (bc2, flag_bits_count) =>
                match parse_proof_flags merkle_proof (ci + bc2) flag_bits_count with
                | none => none
                | some flag_bits =>
                  some { block_header := header,
                         transactions_count := u32_from_le_bytes tc_bytes,
                         hashes := hashes,
                         flag_bits := flag_bits }

/-! ### Concrete proofs used by the merkle claims -/

/-- A degenerate stand-in for the external `hash256_merkle_step`. -/
def step0 : Nat → Nat → Nat := fun _ _ => 0

/-- An all-zero block header value. -/
def header0 : BlockHeader := ⟨0, 0, 0, 0, 0, 0, 0⟩

/-- Two transactions, two hashes, and all three traversal flag bits set:
both leaves of the two-leaf tree are flagged. -/
def proof_two_flagged : MerkleProof := ⟨header0, 2, [1, 2], [true, true, true]⟩

/-- Two transactions, two hashes, one flag byte (eight bits, of which the
traversal uses three). -/
def proof_one_flag_byte : MerkleProof :=
  ⟨header0, 2, [1, 2], [true, true, false, false, false, false, false, false]⟩

/-- A single-transaction proof whose lone leaf is flagged. -/
def proof_single_tx : MerkleProof := ⟨header0, 1, [5], [true]⟩

/-- A proof with zero transactions. -/
def proof_zero_tx : MerkleProof := ⟨header0, 0, [], []⟩

/-- Lower bound that the ghost flag counter must satisfy: one once a merkle
position has been recorded. -/
def flag_floor (t : MerkleProofTraversal) : Nat :=
  match t.merkle_position with
  | some _ => 1
  | none => 0

theorem traverse_flagged_le (hashStep : Nat → Nat → Nat) (p : MerkleProof) :
    ∀ height pos t root t',
      p.traverse_and_extract hashStep height pos t = .ok root t' →
      flag_floor t ≤ t.flagged_leaves → flag_floor t' ≤ t'.flagged_leaves := by
  intro height
  induction height with
  | zero =>
    intro pos t root t' h hft
    rw [MerkleProof.traverse_and_extract] at h
    dsimp only at h
    repeat' split at h
    all_goals simp only [TravOut.ok.injEq, reduceCtorEq] at h
    all_goals obtain ⟨h1, h2⟩ := h
    all_goals subst h2
    all_goals first
      | exact hft
      | (dsimp only [flag_floor]; omega)
  | succ n ih =>
    intro pos t root t' h hft
    rw [MerkleProof.traverse_and_extract] at h
    dsimp only at h
    simp only [Nat.add_sub_cancel] at h
    repeat' split at h
    all_goals simp only [TravOut.ok.injEq, reduceCtorEq] at h
    all_goals obtain ⟨h1, h2⟩ := h
    all_goals subst h2
    all_goals first
      | exact hft
      | (dsimp only [flag_floor]; omega)
      | exact ih _ _ _ _ (by assumption) (by exact hft)
      | exact ih _ _ _ _ (by assumption) (ih _ _ _ _ (by assumption) (by exact hft))

/-- C1 (amended): whenever `verify_proof` returns a `ProofResult`, the
depth-first traversal landed on at least one leaf-level flagged node (the
last one encountered is the one reported), consumed every supplied hash,
and consumed every supplied flag bit at byte granularity; and whenever one
of these fails, `verify_proof` returns an error distinguishing a malformed
proof (leftover hashes or leftover flag bits) from an invalid proof (no
flagged leaf identified), never silently ignoring leftover input. -/
theorem c1_verify_proof_consumption (hashStep : Nat → Nat → Nat) (p : MerkleProof) :
    (∀ r, p.verify_proof hashStep = .ok r →
      ∃ root t, p.root_traversal hashStep = .ok root t ∧
        1 ≤ t.flagged_leaves ∧
        t.hashes_used = p.hashes.length ∧
        (t.bits_used + 7) / 8 = (p.flag_bits.length + 7) / 8)
    ∧ (∀ root t, p.root_traversal hashStep = .ok root t →
        p.transactions_count ≠ 0 →
        p.transactions_count ≤ MAX_TRANSACTIONS_IN_PROOF →
        p.hashes.length ≤ p.flag_bits.length →
        ((t.merkle_position = none ∨ t.hash_position = none →
            p.verify_proof hashStep = .fail .invalidProof) ∧
         (∀ mp hp, t.merkle_position = some mp → t.hash_position = some hp →
            t.hashes_used ≠ p.hashes.length →
            p.verify_proof hashStep = .fail .malformedProof) ∧
         (∀ mp hp, t.merkle_position = some mp → t.hash_position = some hp →
            t.hashes_used = p.hashes.length →
            (t.bits_used + 7) / 8 ≠ (p.flag_bits.length + 7) / 8 →
            p.verify_proof hashStep = .fail .malformedProof))) := by
  constructor
  · intro r h
    unfold MerkleProof.verify_proof at h
    split at h
    · exact absurd h (by simp)
    split at h
    · exact absurd h (by simp)
    split at h
    · exact absurd h (by simp)
    cases hroot : p.root_traversal hashStep with
    | crash => simp only [hroot] at h; exact absurd h (by simp)
    | fail e => simp only [hroot] at h; exact absurd h (by simp)
    | ok root t =>
      simp only [hroot] at h
      cases hmp : t.merkle_position with
      | none => simp only [hmp] at h; exact absurd h (by simp)
      | some merkle_position =>
        simp only [hmp] at h
        cases hhp : t.hash_position with
        | none => simp only [hhp] at h; exact absurd h (by simp)
        | some hash_position =>
          simp only [hhp] at h
          split at h
          · exact absurd h (by simp)
          split at h
          · exact absurd h (by simp)
          rename_i hhu hbits
          simp only [ne_eq, not_not] at hhu hbits
          refine ⟨root, t, rfl, ?_, hhu, hbits⟩
          have hfl := traverse_flagged_le hashStep p p.compute_tree_height 0
            initial_traversal root t hroot (by decide)
          simpa only [flag_floor, hmp] using hfl
  · intro root t hroot h0 hmax hlen
    refine ⟨?_, ?_, ?_⟩
    · intro hor
      unfold MerkleProof.verify_proof
      rw [if_neg h0, if_neg (by omega), if_neg (by omega)]
      simp only [hroot]
      rcases hor with hm | hp
      · simp only [hm]
      · cases hmm : t.merkle_position with
        | none => simp only [hmm]
        | some mp => simp only [hmm, hp]
    · intro mp hp hmp hhp hneq
      unfold MerkleProof.verify_proof
      rw [if_neg h0, if_neg (by omega), if_neg (by omega)]
      simp only [hroot, hmp, hhp]
      rw [if_pos hneq]
    · intro mp hp hmp hhp hequ hneq
      unfold MerkleProof.verify_proof
      rw [if_neg h0, if_neg (by omega), if_neg (by omega)]
      simp only [hroot, hmp, hhp]
      rw [if_neg (by omega), if_pos hneq]

/-- C1 counterexample: on `proof_two_flagged` the traversal lands on two
leaf-level flagged nodes (the ghost counter reads 2, not 1), yet
`verify_proof` still returns a `ProofResult` — refuting "exactly one". -/
theorem c1_counterexample_two_flagged :
    MerkleProof.root_traversal step0 proof_two_flagged =
      .ok 0 ⟨3, 2, some 1, some 1, 2⟩ ∧
    MerkleProof.verify_proof step0 proof_two_flagged = .ok ⟨0, 2, 1⟩ := by
  constructor <;>
    simp [MerkleProof.verify_proof, MerkleProof.root_traversal,
      MerkleProof.traverse_and_extract, MerkleProof.compute_tree_height,
      MerkleProof.compute_tree_height_from, MerkleProof.compute_tree_width,
      initial_traversal, MAX_TRANSACTIONS_IN_PROOF, MAX_BLOCK_WEIGHT,
      MIN_TRANSACTION_WEIGHT, WITNESS_SCALE_FACTOR, step0, header0,
      proof_two_flagged]

/-- Witness for the amended C1 theorem at the single-transaction proof. -/
theorem c1_witness_single_tx :
    ∃ root t, MerkleProof.root_traversal step0 proof_single_tx = .ok root t ∧
      1 ≤ t.flagged_leaves ∧
      t.hashes_used = proof_single_tx.hashes.length ∧
      (t.bits_used + 7) / 8 = (proof_single_tx.flag_bits.length + 7) / 8 :=
  (c1_verify_proof_consumption step0 proof_single_tx).1 ⟨5, 5, 0⟩ (by
    simp [MerkleProof.verify_proof, MerkleProof.root_traversal,
      MerkleProof.traverse_and_extract, MerkleProof.compute_tree_height,
      MerkleProof.compute_tree_height_from, MerkleProof.compute_tree_width,
      initial_traversal, MAX_TRANSACTIONS_IN_PROOF, MAX_BLOCK_WEIGHT,
      MIN_TRANSACTION_WEIGHT, WITNESS_SCALE_FACTOR, step0, header0,
      proof_single_tx])

/-- C9 (amended): `verify_proof` rejects as malformed every proof with zero
transactions, every proof whose transaction count exceeds
`MAX_TRANSACTIONS_IN_PROOF` (4,000,000 / 240), and every proof with fewer
flag *bits* than hashes. -/
theorem c9_guard_rejections (hashStep : Nat → Nat → Nat) (p : MerkleProof) :
    p.transactions_count = 0 ∨ p.transactions_count > MAX_TRANSACTIONS_IN_PROOF ∨
      p.flag_bits.length < p.hashes.length →
    p.verify_proof hashStep = .fail .malformedProof := by
  intro h
  unfold MerkleProof.verify_proof
  rcases h with h | h | h
  · rw [if_pos h]
  · rw [if_neg (by intro h0; rw [h0] at h; exact Nat.not_lt_zero _ h), if_pos h]
  · by_cases h0 : p.transactions_count = 0
    · rw [if_pos h0]
    · by_cases h1 : p.transactions_count > MAX_TRANSACTIONS_IN_PROOF
      · rw [if_neg h0, if_pos h1]
      · rw [if_neg h0, if_neg h1, if_pos h]

/-- C9 counterexample: `proof_one_flag_byte` carries one flag byte (eight
bits) but two hashes — fewer flag-bit *bytes* than hashes — yet
`verify_proof` accepts it, refuting the byte-granularity reading. -/
theorem c9_counterexample_flag_bytes :
    (proof_one_flag_byte.flag_bits.length + 7) / 8 < proof_one_flag_byte.hashes.length ∧
    MerkleProof.verify_proof step0 proof_one_flag_byte = .ok ⟨0, 1, 0⟩ := by
  refine ⟨by decide, ?_⟩
  simp [MerkleProof.verify_proof, MerkleProof.root_traversal,
    MerkleProof.traverse_and_extract, MerkleProof.compute_tree_height,
    MerkleProof.compute_tree_height_from, MerkleProof.compute_tree_width,
    initial_traversal, MAX_TRANSACTIONS_IN_PROOF, MAX_BLOCK_WEIGHT,
    MIN_TRANSACTION_WEIGHT, WITNESS_SCALE_FACTOR, step0, header0,
    proof_one_flag_byte]

/-- Witness for the amended C9 theorem at the zero-transaction proof. -/
theorem c9_witness_zero_tx :
    MerkleProof.verify_proof step0 proof_zero_tx = .fail .malformedProof :=
  c9_guard_rejections step0 proof_zero_tx (Or.inl rfl)

/-- C10 is handled in the relay section below; C6: `MerkleProof::parse`
panics (slice bounds violation at `merkle_proof[0..80]`) on the empty
input, rather than failing with an explicit error. -/
theorem c6_parse_empty_input_panics :
    MerkleProof.parse (fun _ => 0) [] = none := rfl

/-! ## BTC-Relay pallet, from `src/crates/btc-relay/src/lib.rs` -/

/-- Error variants of the pallet's `decl_error!` used by the embedded
functions, plus `ongoingFork`, which appears in the crate's tests and in the
spec's ongoing-fork condition (§4.4) but not in the `decl_error!` list. -/
inductive RelayErr where
  | alreadyInitialized
  | duplicateBlock
  | prevBlock
  | lowDiff
  | diffTargetHeader
  | confirmations
  | invalidMerkleProof
  | forkIdNotFound
  | headerNotFound
  | unknownErrorcode
  | blockNotFound
  | chainCounterOverflow
  | blockHeightOverflow
  | missingBlockHeight
  | invalidTxid
  | ongoingFork
deriving DecidableEq, Repr

/-- Modelled from the spec: the `ErrorCodes` enum of the `security` crate
(not under `src/`): the two kinds the relay knows (`no_data`, `invalid`)
plus at least one further kind hitting the `UnknownErrorcode` arm. -/
inductive ErrorCode where
  | noDataBTCRelay
  | invalidBTCRelay
  | otherCode
deriving DecidableEq, Repr

/-- Modelled from the spec: `RichBlockHeader` of `bitcoin::types`
(not under `src/`), per spec §3: a `BlockHeader` plus `block_height` and
the owning `chain_ref`. -/
structure RichBlockHeader where
  block_header : BlockHeader
  block_height : Nat
  chain_ref : Nat
deriving DecidableEq, Repr

/-- Modelled from the spec: `BlockChain` of `bitcoin::types` (not under
`src/`), with exactly the fields `lib.rs` uses: the id, the height→hash
`BTreeMap` (modelled as a key-sorted association list), the height range,
and the `no_data`/`invalid` height vectors. -/
structure BlockChain where
  chain_id : Nat
  chain : List (Nat × Nat)
  start_height : Nat
  max_height : Nat
  no_data : List Nat
  invalid : List Nat
deriving DecidableEq, Repr

/-- Substrate `Default` value of `BlockChain`, returned by `ChainsIndex`
reads on a missing key. -/
def default_block_chain : BlockChain := ⟨0, [], 0, 0, [], []⟩

/-- Substrate `Default` value of `RichBlockHeader`, the basis of
`BlockHeaders::mutate` on a missing key. -/
def default_rich_header : RichBlockHeader := ⟨⟨0, 0, 0, 0, 0, 0, 0⟩, 0, 0⟩

/-- `BTreeMap::insert` on a key-sorted association list: returns the
previous value at the key (the source checks it to detect duplicates) and
the updated map. -/
def bt_insert : List (Nat × Nat) → Nat → Nat → Option Nat × List (Nat × Nat)
  | [], k, v => (none, [(k, v)])
  | (k', v') :: rest, k, v =>
    if k < k' then (none, (k, v) :: (k', v') :: rest)
    else if k = k' then (some v', (k, v) :: rest)
    else
      let r := bt_insert rest k v
      (r.1, (k', v') :: r.2)

/-- `BTreeMap::get`. -/
def bt_lookup : List (Nat × Nat) → Nat → Option Nat
  | [], _ => none
  | kv :: rest, k => if kv.1 = k then some kv.2 else bt_lookup rest k

/-- Keys below `k`: the part `BTreeMap::split_off(k)` leaves in `self`. -/
def bt_split_low (m : List (Nat × Nat)) (k : Nat) : List (Nat × Nat) :=
  m.filter (fun kv => decide (kv.1 < k))

/-- Keys at or above `k`: the part `BTreeMap::split_off(k)` returns. -/
def bt_split_high (m : List (Nat × Nat)) (k : Nat) : List (Nat × Nat) :=
  m.filter (fun kv => decide (k ≤ kv.1))

/-- `BTreeMap::append`: move every entry of `b` into `a`, entries of `b`
overwriting equal keys. -/
def bt_append (a b : List (Nat × Nat)) : List (Nat × Nat) :=
  b.foldl (fun acc kv => (bt_insert acc kv.1 kv.2).2) a

/-- `Vec` split used on `no_data`/`invalid`: `position(|&h| h >= k)`
followed by `split_off(index)`; `(kept, moved)`. -/
def vec_split (v : List Nat) (k : Nat) : List Nat × List Nat :=
  match v.findIdx? (fun h => decide (k ≤ h)) with
  | none => (v, [])
  | some i => (v.take i, v.drop i)

/-- The pallet's storage, one field per `decl_storage!` item.  `Chains`
(the linked map position → chain id) is the list of chain ids in position
order; `BestBlock` is `none` while uninitialized (`exists()` is false). -/
structure RelayState where
  block_headers : Nat → Option RichBlockHeader
  chains : List Nat
  chains_index : Nat → Option BlockChain
  best_block : Option Nat
  best_block_height : Nat
  chain_counter : Nat

/-- Pointwise update of the `BlockHeaders` map. -/
def bh_update (m : Nat → Option RichBlockHeader) (k : Nat) (v : Option RichBlockHeader) :
    Nat → Option RichBlockHeader :=
  fun n => if n = k then v else m n

/-- Pointwise update of the `ChainsIndex` map. -/
def ci_update (m : Nat → Option BlockChain) (k : Nat) (v : Option BlockChain) :
    Nat → Option BlockChain :=
  fun n => if n = k then v else m n

/-- `Self::chainindex(id)`: storage getter, `Default` on a missing key. -/
def RelayState.chainindex (s : RelayState) (id : Nat) : BlockChain :=
  (s.chains_index id).getD default_block_chain

/-- `Self::blockheader(hash)`: storage getter, `Default` on a missing key. -/
def RelayState.blockheader (s : RelayState) (h : Nat) : RichBlockHeader :=
  (s.block_headers h).getD default_rich_header

/-- `<Chains>::get(&k)`: `Default` (`0`) on a missing key. -/
def chains_get (l : List Nat) (k : Nat) : Nat := l.getD k 0

/-- `<Chains>::insert(&k, &v)`.  The source only ever inserts at an existing
position or at position `len` (the next fresh key). -/
def chains_insert (l : List Nat) (k v : Nat) : List Nat :=
  if k < l.length then l.set k v else l ++ [v]

/-- `<Chains>::swap(a, b)`: exchange the values at the two position keys. -/
def chains_swap (l : List Nat) (a b : Nat) : List Nat :=
  (l.set a (chains_get l b)).set b (chains_get l a)

/-- Constant from `lib.rs`: `MAIN_CHAIN_ID`. -/
def MAIN_CHAIN_ID : Nat := 0

/-- Constant from `lib.rs`: `DIFFICULTY_ADJUSTMENT_INTERVAL`. -/
def DIFFICULTY_ADJUSTMENT_INTERVAL : Nat := 2016

/-- Constant from `lib.rs`: `TARGET_TIMESPAN` (seconds). -/
def TARGET_TIMESPAN : Nat := 1209600

/-- Constant from `lib.rs`: `UNROUNDED_MAX_TARGET`, per the source's own
comment `0x00000000FFFF…FF` (224 set bits). -/
def UNROUNDED_MAX_TARGET : Nat := 2 ^ 224 - 1

/-- Largest `u32` value, the bound of the source's `checked_add` calls. -/
def U32_MAX : Nat := 4294967295

/-- `Self::increment_chain_counter()`: `checked_add(1)` and store. -/
def increment_chain_counter (s : RelayState) : Except RelayErr (Nat × RelayState) :=
  if s.chain_counter + 1 > U32_MAX then .error .chainCounterOverflow
  else .ok (s.chain_counter + 1, { s with chain_counter := s.chain_counter + 1 })

/-- `Self::generate_blockchain`: a fresh chain holding one block. -/
def generate_blockchain (chain_id block_height block_hash : Nat) :
    Except RelayErr BlockChain :=
  let r := bt_insert [] block_height block_hash
  match r.1 with
  | some _ => .error .duplicateBlock
  | none => .ok ⟨chain_id, r.2, block_height, block_height, [], []⟩

/-- `Self::initialize_blockchain`: generate the main chain (id 0). -/
def initialize_blockchain (block_height block_hash : Nat) : Except RelayErr BlockChain :=
  generate_blockchain MAIN_CHAIN_ID block_height block_hash

/-- `Self::create_blockchain`: draw a fresh chain id and generate a chain.
Unreachable from `store_block_header` (see the match-pattern note there). -/
def create_blockchain (s : RelayState) (block_height block_hash : Nat) :
    Except RelayErr (BlockChain × RelayState) :=
  match increment_chain_counter s with
  | .error e => .error e
  | .ok (chain_id, s1) =>
    match generate_blockchain chain_id block_height block_hash with
    | .error e => .error e
    | .ok bc => .ok (bc, s1)

/-- `Self::extend_blockchain`: insert the block at its height (failing on a
collision) and raise `max_height`. -/
def extend_blockchain (block_height block_hash : Nat) (prev_blockchain : BlockChain) :
    Except RelayErr BlockChain :=
  let r := bt_insert prev_blockchain.chain block_height block_hash
  match r.1 with
  | some _ => .error .duplicateBlock
  | none => .ok { prev_blockchain with chain := r.2, max_height := block_height }

/-- `Self::remove_blockchain`: swap the entry at `position` with the one at
the head key (the most recently inserted, i.e. largest, position — the
source's comment: "swap the element with the last element in the mapping")
and remove that last entry. -/
def remove_blockchain (s : RelayState) (position : Nat) : RelayState :=
  let head_index := s.chains.length - 1
  let s1 := { s with chains := chains_swap s.chains position head_index }
  { s1 with chains := s1.chains.dropLast }

/-- `Self::insert_sorted`.  The source collects and key-sorts the `Chains`
entries (already the position-ordered list in this model), then scans
`iter().skip(1)` for the first position whose chain height is at most the
new chain's — but binds the found position with an inner
`let position_blockchain = curr_position`, shadowing the outer
`let mut position_blockchain = max_chain_element`.  The scan's result is
therefore discarded, the insertion position stays `max_chain_element`, and
the subsequent swap loop over
`(position_blockchain..max_chain_element).rev()` is empty: the new chain id
is always appended at the last position. -/
def insert_sorted (s : RelayState) (blockchain : BlockChain) : RelayState :=
  let max_chain_element := s.chains.length
  let position_blockchain := max_chain_element
  let _shadowed := (s.chains.drop 1).findIdx?
    (fun curr_chain_id => decide ((s.chainindex curr_chain_id).max_height ≤ blockchain.max_height))
  let s1 := { s with chains := chains_insert s.chains max_chain_element blockchain.chain_id }
  (List.range' position_blockchain (max_chain_element - position_blockchain)).reverse.foldl
    (fun st curr_position =>
      if curr_position < position_blockchain then st
      else { st with chains := chains_swap st.chains curr_position (curr_position - 1) })
    s1

/-- Re-parenting pass of `swap_main_blockchain`: for every `(height, hash)`
entry, `BlockHeaders::mutate(&hash, |header| header.chain_ref = cid)`. -/
def reparent_headers (m : Nat → Option RichBlockHeader) (entries : List (Nat × Nat))
    (cid : Nat) : Nat → Option RichBlockHeader :=
  entries.foldl
    (fun acc kv => bh_update acc kv.2 (some { (acc kv.2).getD default_rich_header with chain_ref := cid }))
    m

/-- `Self::swap_main_blockchain`, statement for statement: split the main
chain at the fork's start height, append the fork, update best block,
remove the fork, store the displaced suffix under the fresh id, re-insert
the (appended) main chain into `Chains` — the source passes `&main_chain`,
not the forked-off chain, to `insert_sorted` — and re-parent both header
ranges.  Errors after the counter increment leave the incremented counter
behind, as in the source. -/
def swap_main_blockchain (fork : BlockChain) (s : RelayState) :
    Option RelayErr × RelayState :=
  let main_chain := s.chainindex MAIN_CHAIN_ID
  let start_height := fork.start_height
  match increment_chain_counter s with
  | .error e => (some e, s)
  | .ok (chain_id, s1) =>
    let forked_chain := bt_split_high main_chain.chain start_height
    let main_low := bt_split_low main_chain.chain start_height
    let nd := vec_split main_chain.no_data start_height
    let iv := vec_split main_chain.invalid start_height
    let forked_main_chain : BlockChain :=
      ⟨chain_id, forked_chain, start_height, main_chain.max_height, nd.2, iv.2⟩
    let new_main : BlockChain :=
      { main_chain with
          chain := bt_append main_low fork.chain,
          max_height := fork.max_height,
          no_data := nd.1 ++ fork.no_data,
          invalid := iv.1 ++ fork.invalid }
    match bt_lookup new_main.chain new_main.max_height with
    | none => (some .headerNotFound, s1)
    | some best_block =>
      match s1.chains.findIdx? (fun v => v == fork.chain_id) with
      | none => (some .forkIdNotFound, s1)
      | some position =>
        let s2 := { s1 with chains_index := ci_update s1.chains_index MAIN_CHAIN_ID (some new_main) }
        let s3 := { s2 with best_block := some best_block, best_block_height := new_main.max_height }
        let s4 := { s3 with chains_index := ci_update s3.chains_index fork.chain_id none }
        let s5 := remove_blockchain s4 position
        let s6 := { s5 with chains_index := ci_update s5.chains_index forked_main_chain.chain_id (some forked_main_chain) }
        let s7 := insert_sorted s6 new_main
        let s8 := { s7 with block_headers := reparent_headers s7.block_headers forked_chain forked_main_chain.chain_id }
        let s9 := { s8 with block_headers := reparent_headers s8.block_headers fork.chain MAIN_CHAIN_ID }
        (none, s9)

/-- Ascent loop of `check_and_do_reorg`, one constructor case per loop
iteration.  The matched value is `current_position`; `prev_position` is one
less.  A swap against `MAIN_CHAIN_ID` (position 0) runs
`swap_main_blockchain` and then breaks; an ordinary swap exchanges the two
`Chains` entries and continues at the previous position with
`current_height = prev_height`, exactly as the source does. -/
def check_and_do_reorg_loop (fork : BlockChain) :
    Nat → Nat → RelayState → Option RelayErr × RelayState
  | 0, _, s => (none, s)
  | current_position + 1, current_height, s =>
    let prev_position := current_position
    let prev_blockchain_id := chains_get s.chains prev_position
    let prev_height := (s.chainindex prev_blockchain_id).max_height
    if prev_height < current_height then
      if prev_position = MAIN_CHAIN_ID then
        match swap_main_blockchain fork s with
        | (some e, s') => (some e, s')
        | (none, s') => (none, s')
      else
        let s' := { s with chains := chains_swap s.chains prev_position (current_position + 1) }
        check_and_do_reorg_loop fork current_position prev_height s'
    else (none, s)

/-- `Self::check_and_do_reorg`: nothing to do for the main chain itself;
otherwise locate the fork's position among the `Chains` values and run the
ascent loop. -/
def check_and_do_reorg (fork : BlockChain) (s : RelayState) :
    Option RelayErr × RelayState :=
  if fork.chain_id = MAIN_CHAIN_ID then (none, s)
  else
    match s.chains.findIdx? (fun v => v == fork.chain_id) with
    | none => (some .forkIdNotFound, s)
    | some fork_position => check_and_do_reorg_loop fork fork_position fork.max_height s

/-- The `initialize` dispatchable after byte parsing (the 80-byte parser is
external to this crate; the function receives the parsed header and the
submitted height).  A second initialization is rejected while `BestBlock`
exists; `initialize_blockchain`'s error is mapped to `AlreadyInitialized`
as in the source. -/
def initialize_parsed (s : RelayState) (basic_block_header : BlockHeader)
    (block_height : Nat) : Except RelayErr RelayState :=
  if s.best_block.isSome then .error .alreadyInitialized
  else
    match initialize_blockchain block_height basic_block_header.block_hash with
    | .error _ => .error .alreadyInitialized
    | .ok blockchain =>
      let block_header : RichBlockHeader :=
        ⟨basic_block_header, block_height, blockchain.chain_id⟩
      .ok { s with
        block_headers := bh_update s.block_headers basic_block_header.block_hash (some block_header),
        chains_index := ci_update s.chains_index MAIN_CHAIN_ID (some blockchain),
        chains := chains_insert s.chains MAIN_CHAIN_ID MAIN_CHAIN_ID,
        best_block := some basic_block_header.block_hash,
        best_block_height := block_height }

/-- The `store_block_header` dispatchable after byte parsing, line for
line.  Three source constructs deserve notes.

1. `match prev_blockchain.max_height { prev_block_height => extend…,
   _ => create… }` matches against the *identifier pattern*
   `prev_block_height`, which binds a fresh variable instead of comparing
   with the local of the same name: the first arm matches every input, so
   the chain is always "extended" and `create_blockchain` is unreachable.
2. `match blockchain.chain_id { prev_chain_id => … }` has the same
   identifier-pattern shape: the first arm always runs.  Its
   `<ChainsIndex>::mutate(&blockchain.chain_id, |_b| &blockchain)` closure
   ignores its `&mut` argument and merely returns a reference, so the
   stored chain is written back unchanged — the extension is never
   persisted to `ChainsIndex`.
3. The trailing event dispatch (also an identifier-pattern match) only
   emits events, which this embedding does not model. -/
def store_block_header_parsed (s : RelayState) (basic_block_header : BlockHeader) :
    Except RelayErr RelayState :=
  match s.block_headers basic_block_header.hash_prev_block with
  | none => .error .prevBlock
  | some prev_header =>
    let prev_blockchain := s.chainindex prev_header.chain_ref
    let prev_block_height := prev_header.block_height
    if prev_block_height + 1 > U32_MAX then .error .blockHeightOverflow
    else
      let current_block_height := prev_block_height + 1
      match extend_blockchain current_block_height basic_block_header.block_hash prev_blockchain with
      | .error _ => .error .duplicateBlock
      | .ok blockchain =>
        let block_header : RichBlockHeader :=
          ⟨basic_block_header, current_block_height, blockchain.chain_id⟩
        let s1 := { s with
          block_headers := bh_update s.block_headers basic_block_header.block_hash (some block_header) }
        let r := check_and_do_reorg blockchain s1
        .ok r.2

/-- `flag_block_error`: push the block's height onto the chain's
`no_data`/`invalid` vector; an unknown code is rejected.  The store-back
`<ChainsIndex>::mutate(&chain_id, |_b| blockchain)` ignores its `&mut`
argument, so the stored chain is unchanged. -/
def flag_block_error (s : RelayState) (block_hash : Nat) (error : ErrorCode) :
    Except RelayErr RelayState :=
  match s.block_headers block_hash with
  | none => .error .blockNotFound
  | some block_header =>
    let chain_id := block_header.chain_ref
    let blockchain := s.chainindex chain_id
    match error with
    | .noDataBTCRelay =>
      let _updated := { blockchain with no_data := blockchain.no_data ++ [block_header.block_height] }
      .ok s
    | .invalidBTCRelay =>
      let _updated := { blockchain with invalid := blockchain.invalid ++ [block_header.block_height] }
      .ok s
    | _ => .error .unknownErrorcode

/-- `clear_block_error`: locate the block's height in the chain's
`no_data`/`invalid` vector with `position(…).unwrap()` — a panic (`none`)
when the height is absent — and remove it.  As in `flag_block_error`, the
store-back `mutate` closure leaves the stored chain unchanged. -/
def clear_block_error (s : RelayState) (block_hash : Nat) (error : ErrorCode) :
    Option (Except RelayErr RelayState) :=
  match s.block_headers block_hash with
  | none => some (.error .blockNotFound)
  | some block_header =>
    let chain_id := block_header.chain_ref
    let blockchain := s.chainindex chain_id
    match error with
    | .noDataBTCRelay =>
      match blockchain.no_data.findIdx? (fun x => x == block_header.block_height) with
      | none => none
      | some index =>
        let _updated := { blockchain with no_data := blockchain.no_data.eraseIdx index }
        some (.ok s)
    | .invalidBTCRelay =>
      match blockchain.invalid.findIdx? (fun x => x == block_header.block_height) with
      | none => none
      | some index =>
        let _updated := { blockchain with invalid := blockchain.invalid.eraseIdx index }
        some (.ok s)
    | _ => some (.error .unknownErrorcode)

/-- The storage before any call: no headers, no chains, `BestBlock` absent,
counter zero. -/
def empty_relay_state : RelayState :=
  { block_headers := fun _ => none
    chains := []
    chains_index := fun _ => none
    best_block := none
    best_block_height := 0
    chain_counter := 0 }

/-- States produced by a sequence of successful `initialize` and
`store_block_header` calls from the empty storage. -/
inductive Reachable : RelayState → Prop
  | empty : Reachable empty_relay_state
  | init (s s' : RelayState) (hdr : BlockHeader) (height : Nat) :
      Reachable s → initialize_parsed s hdr height = .ok s' → Reachable s'
  | store (s s' : RelayState) (hdr : BlockHeader) :
      Reachable s → store_block_header_parsed s hdr = .ok s' → Reachable s'

theorem check_and_do_reorg_main (fork : BlockChain) (s : RelayState)
    (h : fork.chain_id = MAIN_CHAIN_ID) : check_and_do_reorg fork s = (none, s) := by
  unfold check_and_do_reorg
  rw [if_pos h]

theorem extend_blockchain_chain_id (block_height block_hash : Nat) (bc bc' : BlockChain)
    (he : extend_blockchain block_height block_hash bc = .ok bc') :
    bc'.chain_id = bc.chain_id := by
  unfold extend_blockchain at he
  dsimp only at he
  split at he
  · exact absurd he (by simp)
  · simp only [Except.ok.injEq] at he
    rw [← he]

theorem reachable_chains_index (s : RelayState) (h : Reachable s) :
    ∀ id bc, s.chains_index id = some bc →
      bc.chain_id = MAIN_CHAIN_ID ∧
      bc.start_height ≤ bc.max_height ∧
      bc.chain.map Prod.fst =
        List.range' bc.start_height (bc.max_height + 1 - bc.start_height) := by
  induction h with
  | empty =>
    intro id bc hbc
    exact absurd hbc (by simp [empty_relay_state])
  | init s s' hdr height _ hstep ih =>
    intro id bc hbc
    unfold initialize_parsed at hstep
    split at hstep
    · exact absurd hstep (by simp)
    rw [show initialize_blockchain height hdr.block_hash =
        .ok ⟨MAIN_CHAIN_ID, [(height, hdr.block_hash)], height, height, [], []⟩ from rfl] at hstep
    simp only [Except.ok.injEq] at hstep
    subst hstep
    dsimp only [ci_update] at hbc
    split at hbc
    · simp only [Option.some.injEq] at hbc
      subst hbc
      refine ⟨rfl, le_refl _, ?_⟩
      simp only [List.map_cons, List.map_nil]
      rw [show height + 1 - height = 1 from by omega, List.range'_one]
    · exact ih id bc hbc
  | store s s' hdr _ hstep ih =>
    intro id bc hbc
    unfold store_block_header_parsed at hstep
    cases hprev : s.block_headers hdr.hash_prev_block with
    | none => rw [hprev] at hstep; exact absurd hstep (by simp)
    | some prev_header =>
      rw [hprev] at hstep
      dsimp only at hstep
      split at hstep
      · exact absurd hstep (by simp)
      cases hext : extend_blockchain (prev_header.block_height + 1) hdr.block_hash
          (s.chainindex prev_header.chain_ref) with
      | error e => rw [hext] at hstep; exact absurd hstep (by simp)
      | ok blockchain =>
        rw [hext] at hstep
        dsimp only at hstep
        simp only [Except.ok.injEq] at hstep
        have hcid : blockchain.chain_id = MAIN_CHAIN_ID := by
          rw [extend_blockchain_chain_id _ _ _ _ hext]
          cases hpc : s.chains_index prev_header.chain_ref with
          | none => simp [RelayState.chainindex, hpc, default_block_chain, MAIN_CHAIN_ID]
          | some pbc => simpa [RelayState.chainindex, hpc] using (ih _ _ hpc).1
        rw [check_and_do_reorg_main _ _ hcid] at hstep
        subst hstep
        exact ih id bc hbc

/-- C7: in every state reachable by successful `initialize` and
`store_block_header` calls, every chain stored in `ChainsIndex` covers its
height range contiguously: `max_height - start_height + 1` equals the
number of entries of its height→hash mapping. -/
theorem c7_chain_contiguity (s : RelayState) (hs : Reachable s) :
    ∀ id bc, s.chains_index id = some bc →
      bc.max_height - bc.start_height + 1 = bc.chain.length := by
  intro id bc hbc
  obtain ⟨-, hle, hrange⟩ := reachable_chains_index s hs id bc hbc
  have hlen := congrArg List.length hrange
  simp only [List.length_map, List.length_range'] at hlen
  omega

/-- The state produced by initializing the relay with `header0` at
height 0. -/
def state_genesis : RelayState :=
  ((initialize_parsed empty_relay_state header0 0).toOption).getD empty_relay_state

/-- The chain stored by that initialization. -/
def genesis_chain : BlockChain := ⟨0, [(0, 0)], 0, 0, [], []⟩

/-- Witness for C7 at the concrete post-initialization state. -/
theorem c7_witness_genesis :
    state_genesis.chains_index MAIN_CHAIN_ID = some genesis_chain ∧
    genesis_chain.max_height - genesis_chain.start_height + 1 = genesis_chain.chain.length :=
  ⟨rfl, c7_chain_contiguity state_genesis
    (Reachable.init empty_relay_state state_genesis header0 0 Reachable.empty rfl)
    MAIN_CHAIN_ID genesis_chain rfl⟩

/-! ### Concrete relay states for C4, C8 and C10 -/

/-- Header at height 0 with hash 100. -/
def header_a : BlockHeader := ⟨0, 0, 0, 0, 0, 0, 100⟩

/-- Header at height 1 with hash 101, child of `header_a`. -/
def header_b : BlockHeader := ⟨0, 100, 0, 0, 0, 0, 101⟩

/-- A second child of `header_a` (hash 102): its parent is *not* the tip of
the stored chain, so per the spec a new fork chain must be created. -/
def header_c : BlockHeader := ⟨0, 100, 0, 0, 0, 0, 102⟩

/-- The canonical chain holding `header_a` and `header_b`. -/
def two_block_main : BlockChain := ⟨0, [(0, 100), (1, 101)], 0, 1, [], []⟩

/-- A state whose canonical chain has two blocks. -/
def state_two_blocks : RelayState :=
  { block_headers := fun n =>
      if n = 100 then some ⟨header_a, 0, 0⟩
      else if n = 101 then some ⟨header_b, 1, 0⟩
      else none
    chains := [0]
    chains_index := fun n => if n = 0 then some two_block_main else none
    best_block := some 101
    best_block_height := 1
    chain_counter := 0 }

/-- C4: submitting `header_c`, whose parent `header_a` is not the tip of
its chain, does not create a fork chain: the identifier-pattern `match` in
`store_block_header` always takes the extend arm, whose height-collision
check rejects the submission as `DuplicateBlock`. -/
theorem c4_fork_start_rejected :
    store_block_header_parsed state_two_blocks header_c = .error .duplicateBlock := rfl

/-- Fork chain with `max_height` 99 sitting at position 1. -/
def chain_id3_h99 : BlockChain := ⟨3, [], 43, 99, [], []⟩

/-- Canonical chain with `max_height` 110. -/
def chain_id0_h110 : BlockChain := ⟨0, [], 3, 110, [], []⟩

/-- New fork with `max_height` 100: descending order would place it at
position 1, between heights 110 and 99. -/
def chain_id4_h100 : BlockChain := ⟨4, [], 77, 100, [], []⟩

/-- Ordering-index state for the C8 scenario. -/
def state_insert_sorted : RelayState :=
  { block_headers := fun _ => none
    chains := [0, 3]
    chains_index := fun n =>
      if n = 0 then some chain_id0_h110 else if n = 3 then some chain_id3_h99 else none
    best_block := some 0
    best_block_height := 110
    chain_counter := 4 }

/-- C8: although the chain at position 1 has `max_height` 99, below the new
fork's 100, `insert_sorted` appends the new fork id at position 2 (the
shadowed `position_blockchain` is never updated), leaving the index out of
descending `max_height` order. -/
theorem c8_insert_sorted_appends :
    (insert_sorted state_insert_sorted chain_id4_h100).chains = [0, 3, 4] ∧
    (state_insert_sorted.chainindex 3).max_height < chain_id4_h100.max_height := ⟨rfl, by decide⟩

/-- A state holding one block header whose chain's `no_data` and `invalid`
sets are empty. -/
def state_clear_error : RelayState :=
  { block_headers := fun n => if n = 101 then some ⟨header_b, 1, 1⟩ else none
    chains := [0]
    chains_index := fun _ => none
    best_block := some 101
    best_block_height := 1
    chain_counter := 1 }

/-- C10: clearing a no-data error for a stored block whose height is not in
the chain's `no_data` vector panics (`position(…).unwrap()` on `None`)
instead of returning a rejection. -/
theorem c10_clear_block_error_panics :
    clear_block_error state_clear_error 101 .noDataBTCRelay = none := rfl

/-! ### Spec-modelled validators (absent from `src/`, tested in `tests.rs`) -/

/-- Modelled from the spec: `compute_new_target` (§4.1; exercised by
`tests.rs`, absent from `src/`): fetch the timestamp of the header at
`current_height - 2016` from the previous header's chain, clamp the
observed timespan to `[TARGET_TIMESPAN/4, TARGET_TIMESPAN*4]`, scale the
previous target by it, and cap the result at the network maximum. -/
def compute_new_target (s : RelayState) (prev_header : RichBlockHeader) :
    Except RelayErr Nat :=
  let current_height := prev_header.block_height + 1
  let chain := s.chainindex prev_header.chain_ref
  match bt_lookup chain.chain (current_height - DIFFICULTY_ADJUSTMENT_INTERVAL) with
  | none => .error .missingBlockHeight
  | some retarget_hash =>
    match s.block_headers retarget_hash with
    | none => .error .blockNotFound
    | some retarget_header =>
      let actual_timespan :=
        prev_header.block_header.timestamp - retarget_header.block_header.timestamp
      let clamped := min (max actual_timespan (TARGET_TIMESPAN / 4)) (TARGET_TIMESPAN * 4)
      let new_target := prev_header.block_header.target * clamped / TARGET_TIMESPAN
      .ok (min new_target UNROUNDED_MAX_TARGET)

/-- Modelled from the spec: `verify_block_header` (§4.1).  The dispatchable
`store_block_header` in `src/` carries only a `TODO: call
verify_block_header`; the validator itself appears in the repository solely
through its tests in `tests.rs`.  Per the spec: reject duplicates, reject a
missing parent, check the declared target against the parent's (or the
freshly retargeted) target, and finally the proof of work: the block hash
interpreted as an unsigned integer must be at most the validated target,
else `LowDiff`. -/
def verify_block_header (s : RelayState) (basic_block_header : BlockHeader) :
    Except RelayErr BlockHeader :=
  if (s.block_headers basic_block_header.block_hash).isSome then .error .duplicateBlock
  else
    match s.block_headers basic_block_header.hash_prev_block with
    | none => .error .prevBlock
    | some prev_header =>
      let expected :=
        if (prev_header.block_height + 1) % DIFFICULTY_ADJUSTMENT_INTERVAL = 0 then
          compute_new_target s prev_header
        else .ok prev_header.block_header.target
      match expected with
      | .error e => .error e
      | .ok target =>
        if basic_block_header.target ≠ target then .error .diffTargetHeader
        else if target < basic_block_header.block_hash then .error .lowDiff
        else .ok basic_block_header

/-- Modelled from the spec: `store_block_header` with the source's
`TODO: call verify_block_header` performed — a validator rejection aborts
the dispatch before anything is stored. -/
def store_block_header_checked (s : RelayState) (basic_block_header : BlockHeader) :
    Except RelayErr RelayState :=
  match verify_block_header s basic_block_header with
  | .error e => .error e
  | .ok hdr => store_block_header_parsed s hdr

/-- C2 (spec-modelled): a header submission whose block hash, read as an
unsigned integer, exceeds the validated proof-of-work target is rejected
with `LowDiff`; nothing is stored (the dispatch returns the bare error).
`hvalid` is the target validation itself: at a retarget boundary the
validated target is the freshly computed one, at every other height the
parent's — both branches are covered. -/
theorem c2_low_pow_rejected (s : RelayState) (hdr : BlockHeader) (prev : RichBlockHeader)
    (target : Nat)
    (hnodup : s.block_headers hdr.block_hash = none)
    (hprev : s.block_headers hdr.hash_prev_block = some prev)
    (hvalid : (if (prev.block_height + 1) % DIFFICULTY_ADJUSTMENT_INTERVAL = 0 then
        compute_new_target s prev
      else .ok prev.block_header.target) = .ok target)
    (htarget : hdr.target = target)
    (hpow : target < hdr.block_hash) :
    store_block_header_checked s hdr = .error .lowDiff := by
  unfold store_block_header_checked verify_block_header
  rw [hnodup, hprev]
  simp only [Option.isSome_none, Bool.false_eq_true, if_false]
  rw [hvalid]
  dsimp only
  rw [if_neg (not_not_intro htarget), if_pos hpow]

/-- A header extending `header_b` whose declared target matches its
parent's but whose hash (103) exceeds that target (0). -/
def header_weak_pow : BlockHeader := ⟨0, 101, 0, 0, 0, 0, 103⟩

/-- The chain head at the last height before a retarget boundary: height
2015, timestamp exactly one target timespan after its epoch's first
block, target 5. -/
def retarget_prev : RichBlockHeader := ⟨⟨0, 100, 0, 1209600, 5, 0, 101⟩, 2015, 0⟩

/-- A state whose canonical chain records the epoch's first block (height
0, hash 100, timestamp 0) and the pre-boundary head `retarget_prev`, so
`compute_new_target` succeeds and returns 5. -/
def state_retarget : RelayState :=
  { block_headers := fun n =>
      if n = 100 then some ⟨⟨0, 0, 0, 0, 5, 0, 100⟩, 0, 0⟩
      else if n = 101 then some retarget_prev
      else none
    chains := [0]
    chains_index := fun i => if i = 0 then some ⟨0, [(0, 100)], 0, 2015, [], []⟩ else none
    best_block := some 101
    best_block_height := 2015
    chain_counter := 1 }

/-- A header submitted at the retarget boundary (height 2016): its declared
target 5 matches the freshly computed one, but its hash (103) exceeds it. -/
def header_weak_pow_retarget : BlockHeader := ⟨0, 101, 0, 1300000, 5, 0, 103⟩

/-- Witness for C2 on both branches of the target validation: an ordinary
height at `state_two_blocks`, and a retarget-boundary height at
`state_retarget` where the validated target is the freshly computed one. -/
theorem c2_witness_weak_pow :
    store_block_header_checked state_two_blocks header_weak_pow = .error .lowDiff ∧
    store_block_header_checked state_retarget header_weak_pow_retarget = .error .lowDiff :=
  ⟨c2_low_pow_rejected state_two_blocks header_weak_pow ⟨header_b, 1, 0⟩ 0
      rfl rfl rfl rfl (by decide),
    c2_low_pow_rejected state_retarget header_weak_pow_retarget retarget_prev 5
      rfl rfl rfl rfl (by decide)⟩

/-- Modelled from the spec: `verify_transaction_inclusion` (§4.4) — the
dispatchable's body in `src/` is a stub (`Ok(())` behind TODOs); the
pipeline below follows the spec and the crate's tests.  Parse the raw
proof (a parse failure maps to `InvalidMerkleProof`, as in
`sample_dummy_merkle_proof` of the tests; a verifier failure likewise),
fetch the stored header at the claimed height on the chain that the
proof's embedded header belongs to, compare the extracted root with that
header's merkle root, compare the extracted transaction hash with the
claimed id, require a canonical confirmation depth of at least
`confirmations`, and reject a transaction on a non-canonical chain with
`OngoingFork` unless `insecure` is set and the fork is conclusively
behind.  The spec (§9) flags the bypass condition as under-specified; it
is modelled as the fork's `max_height` plus the required confirmations
lying strictly below the best block height. -/
def verify_transaction_inclusion (hashStep : Nat → Nat → Nat) (dsha : List Nat → Nat)
    (s : RelayState) (tx_id tx_block_height : Nat) (raw_merkle_proof : List Nat)
    (confirmations : Nat) (insecure : Bool) : Except RelayErr Unit :=
  match MerkleProof.parse dsha raw_merkle_proof with
  | none => .error .invalidMerkleProof
  | some proof =>
    match proof.verify_proof hashStep with
    | .ok result =>
      match s.block_headers proof.block_header.block_hash with
      | none => .error .blockNotFound
      | some rich =>
        let blockchain := s.chainindex rich.chain_ref
        match bt_lookup blockchain.chain tx_block_height with
        | none => .error .missingBlockHeight
        | some hash_at_height =>
          match s.block_headers hash_at_height with
          | none => .error .blockNotFound
          | some stored =>
            if result.extracted_root ≠ stored.block_header.merkle_root then
              .error .invalidMerkleProof
            else if result.transaction_hash ≠ tx_id then .error .invalidTxid
            else if s.best_block_height < tx_block_height + confirmations then
              .error .confirmations
            else if rich.chain_ref ≠ MAIN_CHAIN_ID ∧ insecure = false then
              .error .ongoingFork
            else if rich.chain_ref ≠ MAIN_CHAIN_ID ∧
                ¬ blockchain.max_height + confirmations < s.best_block_height then
              .error .ongoingFork
            else .ok ()
    | _ => .error .invalidMerkleProof

/-- C5 (spec-modelled): a successful `verify_transaction_inclusion` call
implies the supplied proof parsed, verified, matched the merkle root of
the stored header at the claimed height on the embedded header's chain,
matched the claimed transaction id, and cleared the canonical confirmation
depth requirement. -/
theorem c5_inclusion_success_conditions (hashStep : Nat → Nat → Nat)
    (dsha : List Nat → Nat) (s : RelayState) (tx_id tx_block_height : Nat)
    (raw_merkle_proof : List Nat) (confirmations : Nat) (insecure : Bool) :
    verify_transaction_inclusion hashStep dsha s tx_id tx_block_height
      raw_merkle_proof confirmations insecure = .ok () →
    ∃ proof result rich hash_at_height stored,
      MerkleProof.parse dsha raw_merkle_proof = some proof ∧
      proof.verify_proof hashStep = .ok result ∧
      s.block_headers proof.block_header.block_hash = some rich ∧
      bt_lookup (s.chainindex rich.chain_ref).chain tx_block_height = some hash_at_height ∧
      s.block_headers hash_at_height = some stored ∧
      result.extracted_root = stored.block_header.merkle_root ∧
      result.transaction_hash = tx_id ∧
      tx_block_height + confirmations ≤ s.best_block_height := by
  intro h
  unfold verify_transaction_inclusion at h
  cases hparse : MerkleProof.parse dsha raw_merkle_proof with
  | none => simp only [hparse] at h; exact absurd h (by simp)
  | some proof =>
    simp only [hparse] at h
    cases hverify : proof.verify_proof hashStep with
    | fail e => simp only [hverify] at h; exact absurd h (by simp)
    | crash => simp only [hverify] at h; exact absurd h (by simp)
    | ok result =>
      simp only [hverify] at h
      cases hrich : s.block_headers proof.block_header.block_hash with
      | none => simp only [hrich] at h; exact absurd h (by simp)
      | some rich =>
        simp only [hrich] at h
        cases hheight : bt_lookup (s.chainindex rich.chain_ref).chain tx_block_height with
        | none => simp only [hheight] at h; exact absurd h (by simp)
        | some hash_at_height =>
          simp only [hheight] at h
          cases hstored : s.block_headers hash_at_height with
          | none => simp only [hstored] at h; exact absurd h (by simp)
          | some stored =>
            simp only [hstored] at h
            split at h
            · exact absurd h (by simp)
            split at h
            · exact absurd h (by simp)
            split at h
            · exact absurd h (by simp)
            split at h
            · exact absurd h (by simp)
            split at h
            · exact absurd h (by simp)
            rename_i hroot htx hdepth hfork1 hfork2
            simp only [ne_eq, not_not] at hroot htx
            exact ⟨proof, result, rich, hash_at_height, stored, rfl, hverify, hrich,
              hheight, hstored, hroot, htx, by omega⟩

/-- A stand-in header digest mapping every byte string to 99. -/
def dsha99 : List Nat → Nat := fun _ => 99

/-- Wire bytes of a one-transaction inclusion proof: 80 header bytes, the
transaction count 1, one hash (value 7), one flag byte `0x01`. -/
def inclusion_proof_bytes : List Nat :=
  List.replicate 80 0 ++ [1, 0, 0, 0] ++ [1] ++ (7 :: List.replicate 31 0) ++ [1, 1]

/-- The `MerkleProof` those bytes parse to (under `dsha99`). -/
def inclusion_proof : MerkleProof :=
  ⟨⟨0, 0, 0, 0, 0, 0, 99⟩, 1, [7],
   [true, false, false, false, false, false, false, false]⟩

/-- The stored copy of the proof's embedded header (hash 99). -/
def embedded_rich : RichBlockHeader := ⟨⟨0, 0, 0, 0, 0, 0, 99⟩, 300, 0⟩

/-- The stored header at the claimed height 203, with merkle root 7. -/
def stored_tx_rich : RichBlockHeader := ⟨⟨0, 0, 7, 0, 0, 0, 55⟩, 203, 0⟩

/-- The canonical chain holding the transaction's block at height 203. -/
def main_inclusion_chain : BlockChain := ⟨0, [(203, 55)], 10, 300, [], []⟩

/-- A state in which the concrete inclusion claim verifies. -/
def state_inclusion : RelayState :=
  { block_headers := fun n =>
      if n = 99 then some embedded_rich else if n = 55 then some stored_tx_rich else none
    chains := [0]
    chains_index := fun n => if n = 0 then some main_inclusion_chain else none
    best_block := some 55
    best_block_height := 300
    chain_counter := 0 }

set_option maxRecDepth 8192 in
/-- Witness for C5 at a concrete succeeding inclusion claim. -/
theorem c5_witness_inclusion :
    ∃ proof result rich hash_at_height stored,
      MerkleProof.parse dsha99 inclusion_proof_bytes = some proof ∧
      MerkleProof.verify_proof step0 proof = .ok result ∧
      state_inclusion.block_headers proof.block_header.block_hash = some rich ∧
      bt_lookup (state_inclusion.chainindex rich.chain_ref).chain 203 = some hash_at_height ∧
      state_inclusion.block_headers hash_at_height = some stored ∧
      result.extracted_root = stored.block_header.merkle_root ∧
      result.transaction_hash = 7 ∧
      203 + 5 ≤ state_inclusion.best_block_height :=
  c5_inclusion_success_conditions step0 dsha99 state_inclusion 7 203
    inclusion_proof_bytes 5 false (by
      have h1 : MerkleProof.parse dsha99 inclusion_proof_bytes = some inclusion_proof := by
        decide
      have h2 : MerkleProof.verify_proof step0 inclusion_proof = .ok ⟨7, 7, 0⟩ := by
        simp [MerkleProof.verify_proof, MerkleProof.root_traversal,
          MerkleProof.traverse_and_extract, MerkleProof.compute_tree_height,
          MerkleProof.compute_tree_height_from, MerkleProof.compute_tree_width,
          initial_traversal, MAX_TRANSACTIONS_IN_PROOF, MAX_BLOCK_WEIGHT,
          MIN_TRANSACTION_WEIGHT, WITNESS_SCALE_FACTOR, step0, inclusion_proof]
      unfold verify_transaction_inclusion
      rw [h1]
      dsimp only
      rw [h2]
      rfl)

/-! ### The reorg scenario of C3 -/

/-- A contiguous height→hash mapping: heights `lo, …, lo + n - 1` with
hashes assigned by `f`. -/
def mk_chain (lo n : Nat) (f : Nat → Nat) : List (Nat × Nat) :=
  (List.range' lo n).map (fun h => (h, f h))

theorem mem_mk_chain (lo n : Nat) (f : Nat → Nat) (kv : Nat × Nat)
    (h : kv ∈ mk_chain lo n f) :
    lo ≤ kv.1 ∧ kv.1 < lo + n ∧ kv.2 = f kv.1 := by
  unfold mk_chain at h
  obtain ⟨a, ha, rfl⟩ := List.mem_map.mp h
  have hb := List.mem_range'_1.mp ha
  exact ⟨hb.1, hb.2, rfl⟩

theorem mk_chain_pairwise (lo n : Nat) (f : Nat → Nat) :
    (mk_chain lo n f).Pairwise (fun x y => x.1 < y.1) := by
  unfold mk_chain
  rw [List.pairwise_map]
  exact List.pairwise_lt_range' lo n

theorem mk_chain_congr (lo n : Nat) (f g : Nat → Nat)
    (h : ∀ k, lo ≤ k → k < lo + n → f k = g k) :
    mk_chain lo n f = mk_chain lo n g := by
  unfold mk_chain
  apply List.map_congr_left
  intro a ha
  have hb := List.mem_range'_1.mp ha
  rw [h a hb.1 hb.2]

theorem mk_chain_split (lo n t : Nat) (f : Nat → Nat) (h1 : lo ≤ t) (h2 : t ≤ lo + n) :
    mk_chain lo n f = mk_chain lo (t - lo) f ++ mk_chain t (n - (t - lo)) f := by
  unfold mk_chain
  rw [← List.map_append]
  have key := List.range'_append_1 lo (t - lo) (n - (t - lo))
  rw [show lo + (t - lo) = t from by omega,
      show n - (t - lo) + (t - lo) = n from by omega] at key
  rw [key]

theorem bt_split_low_mk_chain (lo n t : Nat) (f : Nat → Nat)
    (h1 : lo ≤ t) (h2 : t ≤ lo + n) :
    bt_split_low (mk_chain lo n f) t = mk_chain lo (t - lo) f := by
  rw [mk_chain_split lo n t f h1 h2]
  unfold bt_split_low
  rw [List.filter_append,
    List.filter_eq_self.mpr (fun kv hkv => by
      have := mem_mk_chain lo (t - lo) f kv hkv
      simp only [decide_eq_true_eq]
      omega),
    List.filter_eq_nil_iff.mpr (fun kv hkv => by
      have := mem_mk_chain t (n - (t - lo)) f kv hkv
      simp only [decide_eq_true_eq]
      omega),
    List.append_nil]

theorem bt_split_high_mk_chain (lo n t : Nat) (f : Nat → Nat)
    (h1 : lo ≤ t) (h2 : t ≤ lo + n) :
    bt_split_high (mk_chain lo n f) t = mk_chain t (n - (t - lo)) f := by
  rw [mk_chain_split lo n t f h1 h2]
  unfold bt_split_high
  rw [List.filter_append,
    List.filter_eq_nil_iff.mpr (fun kv hkv => by
      have := mem_mk_chain lo (t - lo) f kv hkv
      simp only [decide_eq_true_eq]
      omega),
    List.filter_eq_self.mpr (fun kv hkv => by
      have := mem_mk_chain t (n - (t - lo)) f kv hkv
      simp only [decide_eq_true_eq]
      omega),
    List.nil_append]

theorem bt_insert_append (m : List (Nat × Nat)) (k v : Nat)
    (hk : ∀ kv ∈ m, kv.1 < k) :
    bt_insert m k v = (none, m ++ [(k, v)]) := by
  induction m with
  | nil => rfl
  | cons kv rest ih =>
    have h1 : kv.1 < k := hk kv (List.mem_cons_self kv rest)
    unfold bt_insert
    rw [if_neg (by omega), if_neg (by omega),
      ih (fun x hx => hk x (List.mem_cons_of_mem kv hx))]
    simp

theorem bt_append_concat (a b : List (Nat × Nat))
    (hab : ∀ kv1 ∈ a, ∀ kv2 ∈ b, kv1.1 < kv2.1)
    (hb : b.Pairwise (fun x y => x.1 < y.1)) :
    bt_append a b = a ++ b := by
  induction b generalizing a with
  | nil => simp [bt_append]
  | cons kv rest ih =>
    unfold bt_append
    rw [List.foldl_cons]
    rw [show (bt_insert a kv.1 kv.2).2 = a ++ [(kv.1, kv.2)] from by
      rw [bt_insert_append a kv.1 kv.2 (fun x hx => hab x hx kv (List.mem_cons_self kv rest))]]
    have hb' := List.pairwise_cons.mp hb
    have step : bt_append (a ++ [(kv.1, kv.2)]) rest = (a ++ [(kv.1, kv.2)]) ++ rest := by
      apply ih
      · intro kv1 h1 kv2 h2
        rcases List.mem_append.mp h1 with h1a | h1b
        · exact hab kv1 h1a kv2 (List.mem_cons_of_mem kv h2)
        · have : kv1 = (kv.1, kv.2) := by simpa using h1b
          subst this
          exact hb'.1 kv2 h2
      · exact hb'.2
    calc List.foldl (fun acc kv => (bt_insert acc kv.1 kv.2).2) (a ++ [(kv.1, kv.2)]) rest
        = bt_append (a ++ [(kv.1, kv.2)]) rest := rfl
      _ = (a ++ [(kv.1, kv.2)]) ++ rest := step
      _ = a ++ kv :: rest := by simp

theorem bt_lookup_mk_chain (f : Nat → Nat) :
    ∀ n lo k, bt_lookup (mk_chain lo n f) k =
      if lo ≤ k ∧ k < lo + n then some (f k) else none := by
  intro n
  induction n with
  | zero =>
    intro lo k
    rw [if_neg (by omega)]
    rfl
  | succ m ih =>
    intro lo k
    unfold mk_chain
    rw [List.range'_succ, List.map_cons]
    show bt_lookup ((lo, f lo) :: mk_chain (lo + 1) m f) k = _
    unfold bt_lookup
    by_cases hk : lo = k
    · subst hk
      rw [if_pos rfl, if_pos (by omega)]
    · rw [if_neg hk, ih (lo + 1) k]
      by_cases hk2 : lo + 1 ≤ k ∧ k < lo + 1 + m
      · rw [if_pos hk2, if_pos (by omega)]
      · rw [if_neg hk2, if_neg (by omega)]

theorem reparent_headers_not_mem (entries : List (Nat × Nat)) (cid hsh : Nat) :
    ∀ m, hsh ∉ entries.map Prod.snd → (reparent_headers m entries cid) hsh = m hsh := by
  induction entries with
  | nil => intro m _; rfl
  | cons kv rest ih =>
    intro m h
    have h1 : hsh ≠ kv.2 := by
      intro hEq
      exact h (by simp [hEq])
    have h2 : hsh ∉ rest.map Prod.snd := by
      intro hmem
      exact h (by simp [hmem])
    unfold reparent_headers
    rw [List.foldl_cons]
    rw [show List.foldl
        (fun acc kv => bh_update acc kv.2 (some { (acc kv.2).getD default_rich_header with chain_ref := cid }))
        (bh_update m kv.2 (some { (m kv.2).getD default_rich_header with chain_ref := cid })) rest =
      reparent_headers (bh_update m kv.2 (some { (m kv.2).getD default_rich_header with chain_ref := cid })) rest cid from rfl]
    rw [ih _ h2]
    simp [bh_update, h1]

theorem reparent_headers_mem (entries : List (Nat × Nat)) (cid hsh : Nat) :
    ∀ m, hsh ∈ entries.map Prod.snd →
      ((reparent_headers m entries cid) hsh).map RichBlockHeader.chain_ref = some cid := by
  induction entries with
  | nil => intro m h; simp at h
  | cons kv rest ih =>
    intro m h
    unfold reparent_headers
    rw [List.foldl_cons]
    rw [show List.foldl
        (fun acc kv => bh_update acc kv.2 (some { (acc kv.2).getD default_rich_header with chain_ref := cid }))
        (bh_update m kv.2 (some { (m kv.2).getD default_rich_header with chain_ref := cid })) rest =
      reparent_headers (bh_update m kv.2 (some { (m kv.2).getD default_rich_header with chain_ref := cid })) rest cid from rfl]
    by_cases hmem : hsh ∈ rest.map Prod.snd
    · exact ih _ hmem
    · have h1 : hsh = kv.2 := by
        rcases List.mem_map.mp h with ⟨x, hx, hx2⟩
        rcases List.mem_cons.mp hx with hx | hx
        · rw [hx] at hx2; exact hx2.symm
        · exact absurd (hx2 ▸ List.mem_map_of_mem Prod.snd hx) hmem
      rw [reparent_headers_not_mem rest cid hsh _ hmem]
      subst h1
      simp [bh_update]

theorem bt_lookup_append (a b : List (Nat × Nat)) (k : Nat) :
    bt_lookup (a ++ b) k =
      match bt_lookup a k with
      | some v => some v
      | none => bt_lookup b k := by
  induction a with
  | nil => rfl
  | cons kv rest ih =>
    simp only [List.cons_append, bt_lookup]
    by_cases hk : kv.1 = k
    · rw [if_pos hk, if_pos hk]
    · rw [if_neg hk, if_neg hk]
      exact ih

/-- The state `swap_main_blockchain` produces on a two-chain ordering index
(main at position 0, the fork at position 1). -/
def swap_main_result (s : RelayState) (fork mainBC : BlockChain) (tip : Nat) : RelayState :=
  { block_headers :=
      reparent_headers
        (reparent_headers s.block_headers (bt_split_high mainBC.chain fork.start_height)
          (s.chain_counter + 1))
        fork.chain MAIN_CHAIN_ID
    chains := [MAIN_CHAIN_ID, mainBC.chain_id]
    chains_index :=
      ci_update
        (ci_update
          (ci_update s.chains_index MAIN_CHAIN_ID
            (some (BlockChain.mk mainBC.chain_id
              (bt_append (bt_split_low mainBC.chain fork.start_height) fork.chain)
              mainBC.start_height fork.max_height
              ((vec_split mainBC.no_data fork.start_height).1 ++ fork.no_data)
              ((vec_split mainBC.invalid fork.start_height).1 ++ fork.invalid))))
          fork.chain_id none)
        (s.chain_counter + 1)
        (some (BlockChain.mk (s.chain_counter + 1)
          (bt_split_high mainBC.chain fork.start_height)
          fork.start_height mainBC.max_height
          (vec_split mainBC.no_data fork.start_height).2
          (vec_split mainBC.invalid fork.start_height).2))
    best_block := some tip
    best_block_height := fork.max_height
    chain_counter := s.chain_counter + 1 }

theorem swap_main_spec (s : RelayState) (fork mainBC : BlockChain) (tip : Nat)
    (hmain : s.chains_index MAIN_CHAIN_ID = some mainBC)
    (hcount : s.chain_counter + 1 ≤ U32_MAX)
    (hchains : s.chains = [MAIN_CHAIN_ID, fork.chain_id])
    (hfid : fork.chain_id ≠ 0)
    (hlook : bt_lookup (bt_append (bt_split_low mainBC.chain fork.start_height) fork.chain)
        fork.max_height = some tip) :
    swap_main_blockchain fork s = (none, swap_main_result s fork mainBC tip) := by
  have hne : (MAIN_CHAIN_ID == fork.chain_id) = false :=
    beq_eq_false_iff_ne.mpr (by simpa [MAIN_CHAIN_ID] using Ne.symm hfid)
  have hfind : List.findIdx? (fun v => v == fork.chain_id)
      [MAIN_CHAIN_ID, fork.chain_id] = some 1 := by
    simp [List.findIdx?_cons, hne]
  unfold swap_main_blockchain
  rw [show s.chainindex MAIN_CHAIN_ID = mainBC from by
    unfold RelayState.chainindex
    rw [hmain]
    rfl]
  rw [show increment_chain_counter s =
      .ok (s.chain_counter + 1, { s with chain_counter := s.chain_counter + 1 }) from by
    unfold increment_chain_counter
    rw [if_neg (by omega)]]
  dsimp only
  rw [hlook]
  dsimp only
  rw [hchains, hfind]
  rfl

/-- The fork chain of the C3 scenario: contiguous heights `t … H+1`. -/
def reorg_fork (t H : Nat) (ff : Nat → Nat) (fid : Nat) (nd_f iv_f : List Nat) : BlockChain :=
  ⟨fid, mk_chain t (H + 2 - t) ff, t, H + 1, nd_f, iv_f⟩

/-- The canonical chain of the C3 scenario: contiguous heights `s0 … H`. -/
def reorg_main (s0 H : Nat) (fm : Nat → Nat) (nd_m iv_m : List Nat) : BlockChain :=
  ⟨MAIN_CHAIN_ID, mk_chain s0 (H + 1 - s0) fm, s0, H, nd_m, iv_m⟩

/-- A state holding the canonical chain at position 0 and the fork (already
extended to height `H+1`) at position 1 of the ordering index. -/
def reorg_scenario_state (s0 t H : Nat) (fm ff : Nat → Nat) (fid c : Nat)
    (nd_m iv_m nd_f iv_f : List Nat) (bh0 : Nat → Option RichBlockHeader)
    (bb : Option Nat) (bbh : Nat) : RelayState :=
  { block_headers := bh0
    chains := [MAIN_CHAIN_ID, fid]
    chains_index := fun i =>
      if i = MAIN_CHAIN_ID then some (reorg_main s0 H fm nd_m iv_m)
      else if i = fid then some (reorg_fork t H ff fid nd_f iv_f)
      else none
    best_block := bb
    best_block_height := bbh
    chain_counter := c }

/-- The promoted canonical chain: the old mapping below the fork point,
the fork's mapping from there up to `H+1`. -/
def promoted_main_chain (s0 t H : Nat) (fm ff : Nat → Nat) (nd_m iv_m nd_f iv_f : List Nat) :
    BlockChain :=
  ⟨MAIN_CHAIN_ID, mk_chain s0 (H + 2 - s0) (fun h => if h < t then fm h else ff h), s0, H + 1,
    (vec_split nd_m t).1 ++ nd_f, (vec_split iv_m t).1 ++ iv_f⟩

/-- The displaced suffix of the old canonical chain, stored under the fresh
id `c + 1`: exactly the previously-canonical blocks at heights `t … H`. -/
def displaced_fork_chain (t H c : Nat) (fm : Nat → Nat) (nd_m iv_m : List Nat) : BlockChain :=
  ⟨c + 1, mk_chain t (H + 1 - t) fm, t, H, (vec_split nd_m t).2, (vec_split iv_m t).2⟩

/-- C3: on a state with a canonical chain of max height `H` and a fork
extended to `H+1` from a common ancestor at height `t`, `check_and_do_reorg`
on that fork promotes it: the canonical mapping is split at `t` and extended
with the fork's mapping up to `H+1`, the displaced suffix becomes a
retrievable stored fork chain under the fresh id holding exactly the
previously-canonical blocks from the fork point onward, every header in the
appended range is re-parented to chain 0 and every header of the displaced
suffix to the fresh fork id, and the best-block pointer and height move to
the new canonical tip. -/
theorem c3_reorg_promotes (s0 t H : Nat) (fm ff : Nat → Nat) (fid c : Nat)
    (nd_m iv_m nd_f iv_f : List Nat) (bh0 : Nat → Option RichBlockHeader)
    (bb : Option Nat) (bbh : Nat)
    (hfid : fid ≠ 0) (hst : s0 ≤ t) (htH : t ≤ H) (hc : c + 1 ≤ U32_MAX)
    (hdisj : ((List.range' t (H + 1 - t)).all fun h1 =>
        (List.range' t (H + 2 - t)).all fun h2 => fm h1 != ff h2) = true) :
    (let r := check_and_do_reorg (reorg_fork t H ff fid nd_f iv_f)
        (reorg_scenario_state s0 t H fm ff fid c nd_m iv_m nd_f iv_f bh0 bb bbh)
     r.1 = none ∧
     r.2.chains_index MAIN_CHAIN_ID =
       some (promoted_main_chain s0 t H fm ff nd_m iv_m nd_f iv_f) ∧
     r.2.chains_index (c + 1) = some (displaced_fork_chain t H c fm nd_m iv_m) ∧
     ((mk_chain t (H + 2 - t) ff).all fun kv =>
       (r.2.block_headers kv.2).map RichBlockHeader.chain_ref == some MAIN_CHAIN_ID) = true ∧
     ((mk_chain t (H + 1 - t) fm).all fun kv =>
       (r.2.block_headers kv.2).map RichBlockHeader.chain_ref == some (c + 1)) = true ∧
     r.2.best_block = some (ff (H + 1)) ∧
     r.2.best_block_height = H + 1) := by
  have hdisj' : ∀ h1, t ≤ h1 → h1 < H + 1 → ∀ h2, t ≤ h2 → h2 < H + 2 → fm h1 ≠ ff h2 := by
    intro h1 a1 b1 h2 a2 b2
    have u1 := (List.all_eq_true.mp hdisj) h1 (List.mem_range'_1.mpr ⟨a1, by omega⟩)
    have u2 := (List.all_eq_true.mp u1) h2 (List.mem_range'_1.mpr ⟨a2, by omega⟩)
    simpa using u2
  have hsplitlow : bt_split_low (mk_chain s0 (H + 1 - s0) fm) t = mk_chain s0 (t - s0) fm :=
    bt_split_low_mk_chain s0 (H + 1 - s0) t fm hst (by omega)
  have hsplithigh : bt_split_high (mk_chain s0 (H + 1 - s0) fm) t = mk_chain t (H + 1 - t) fm := by
    have h := bt_split_high_mk_chain s0 (H + 1 - s0) t fm hst (by omega)
    rw [show H + 1 - s0 - (t - s0) = H + 1 - t from by omega] at h
    exact h
  have happ : bt_append (mk_chain s0 (t - s0) fm) (mk_chain t (H + 2 - t) ff) =
      mk_chain s0 (t - s0) fm ++ mk_chain t (H + 2 - t) ff := by
    apply bt_append_concat
    · intro kv1 h1 kv2 h2
      have b1 := mem_mk_chain _ _ _ _ h1
      have b2 := mem_mk_chain _ _ _ _ h2
      omega
    · exact mk_chain_pairwise t (H + 2 - t) ff
  have hcomb : mk_chain s0 (H + 2 - s0) (fun h => if h < t then fm h else ff h) =
      mk_chain s0 (t - s0) fm ++ mk_chain t (H + 2 - t) ff := by
    rw [mk_chain_split s0 (H + 2 - s0) t _ hst (by omega),
      show H + 2 - s0 - (t - s0) = H + 2 - t from by omega]
    congr 1
    · exact mk_chain_congr _ _ _ _ (fun k hk1 hk2 => by rw [if_pos (by omega)])
    · exact mk_chain_congr _ _ _ _ (fun k hk1 hk2 => by rw [if_neg (by omega)])
  have hlook : bt_lookup
      (bt_append
        (bt_split_low (reorg_main s0 H fm nd_m iv_m).chain
          (reorg_fork t H ff fid nd_f iv_f).start_height)
        (reorg_fork t H ff fid nd_f iv_f).chain)
      (reorg_fork t H ff fid nd_f iv_f).max_height = some (ff (H + 1)) := by
    show bt_lookup (bt_append (bt_split_low (mk_chain s0 (H + 1 - s0) fm) t)
      (mk_chain t (H + 2 - t) ff)) (H + 1) = some (ff (H + 1))
    rw [hsplitlow, happ, bt_lookup_append,
      bt_lookup_mk_chain fm (t - s0) s0 (H + 1), if_neg (by omega)]
    rw [bt_lookup_mk_chain ff (H + 2 - t) t (H + 1), if_pos (by omega)]
  have hswap := swap_main_spec
    (reorg_scenario_state s0 t H fm ff fid c nd_m iv_m nd_f iv_f bh0 bb bbh)
    (reorg_fork t H ff fid nd_f iv_f) (reorg_main s0 H fm nd_m iv_m) (ff (H + 1))
    rfl hc rfl hfid hlook
  have hne : (MAIN_CHAIN_ID == fid) = false :=
    beq_eq_false_iff_ne.mpr (by simpa [MAIN_CHAIN_ID] using Ne.symm hfid)
  have hentry : check_and_do_reorg (reorg_fork t H ff fid nd_f iv_f)
      (reorg_scenario_state s0 t H fm ff fid c nd_m iv_m nd_f iv_f bh0 bb bbh) =
      (none, swap_main_result
        (reorg_scenario_state s0 t H fm ff fid c nd_m iv_m nd_f iv_f bh0 bb bbh)
        (reorg_fork t H ff fid nd_f iv_f) (reorg_main s0 H fm nd_m iv_m) (ff (H + 1))) := by
    unfold check_and_do_reorg
    rw [if_neg (show ¬(reorg_fork t H ff fid nd_f iv_f).chain_id = MAIN_CHAIN_ID from by
      dsimp only [reorg_fork]
      simpa [MAIN_CHAIN_ID] using hfid)]
    rw [show List.findIdx? (fun v => v == (reorg_fork t H ff fid nd_f iv_f).chain_id)
        (reorg_scenario_state s0 t H fm ff fid c nd_m iv_m nd_f iv_f bh0 bb bbh).chains =
        some 1 from by
      dsimp only [reorg_fork, reorg_scenario_state]
      simp [List.findIdx?_cons, hne]]
    show check_and_do_reorg_loop (reorg_fork t H ff fid nd_f iv_f) 1
      (reorg_fork t H ff fid nd_f iv_f).max_height
      (reorg_scenario_state s0 t H fm ff fid c nd_m iv_m nd_f iv_f bh0 bb bbh) = _
    conv_lhs => rw [show (1 : Nat) = 0 + 1 from rfl]
    rw [check_and_do_reorg_loop]
    rw [show ((reorg_scenario_state s0 t H fm ff fid c nd_m iv_m nd_f iv_f bh0 bb
        bbh).chainindex (chains_get (reorg_scenario_state s0 t H fm ff fid c nd_m iv_m
        nd_f iv_f bh0 bb bbh).chains 0)).max_height = H from rfl]
    rw [show (reorg_fork t H ff fid nd_f iv_f).max_height = H + 1 from rfl]
    rw [if_pos (by omega), if_pos (show (0 : Nat) = MAIN_CHAIN_ID from rfl), hswap]
  rw [hentry]
  refine ⟨rfl, ?_, ?_, ?_, ?_, rfl, rfl⟩
  · dsimp only [swap_main_result, ci_update, reorg_scenario_state, reorg_fork, reorg_main]
    rw [if_neg (show ¬MAIN_CHAIN_ID = c + 1 from by
        dsimp only [MAIN_CHAIN_ID]; omega),
      if_neg (show ¬MAIN_CHAIN_ID = fid from by
        simpa [MAIN_CHAIN_ID] using Ne.symm hfid),
      if_pos rfl]
    rw [hsplitlow, happ, ← hcomb]
    rfl
  · dsimp only [swap_main_result, ci_update, reorg_scenario_state, reorg_fork, reorg_main]
    rw [if_pos rfl]
    rw [hsplithigh]
    rfl
  · apply List.all_eq_true.mpr
    intro kv hkv
    have hmem : kv.2 ∈ ((reorg_fork t H ff fid nd_f iv_f).chain).map Prod.snd :=
      List.mem_map_of_mem Prod.snd hkv
    rw [show (swap_main_result (reorg_scenario_state s0 t H fm ff fid c nd_m iv_m nd_f
        iv_f bh0 bb bbh) (reorg_fork t H ff fid nd_f iv_f) (reorg_main s0 H fm nd_m iv_m)
        (ff (H + 1))).block_headers =
      reparent_headers (reparent_headers bh0 (bt_split_high (mk_chain s0 (H + 1 - s0) fm) t)
        (c + 1)) (mk_chain t (H + 2 - t) ff) MAIN_CHAIN_ID from rfl]
    rw [reparent_headers_mem (mk_chain t (H + 2 - t) ff) MAIN_CHAIN_ID kv.2 _ hmem]
    simp
  · apply List.all_eq_true.mpr
    intro kv hkv
    have hbounds := mem_mk_chain _ _ _ _ hkv
    rw [show (swap_main_result (reorg_scenario_state s0 t H fm ff fid c nd_m iv_m nd_f
        iv_f bh0 bb bbh) (reorg_fork t H ff fid nd_f iv_f) (reorg_main s0 H fm nd_m iv_m)
        (ff (H + 1))).block_headers =
      reparent_headers (reparent_headers bh0 (bt_split_high (mk_chain s0 (H + 1 - s0) fm) t)
        (c + 1)) (mk_chain t (H + 2 - t) ff) MAIN_CHAIN_ID from rfl]
    rw [reparent_headers_not_mem (mk_chain t (H + 2 - t) ff) MAIN_CHAIN_ID kv.2 _ (by
      intro hmem
      obtain ⟨kv2, hkv2, heq2⟩ := List.mem_map.mp hmem
      have hb2 := mem_mk_chain _ _ _ _ hkv2
      exact hdisj' kv.1 hbounds.1 (by omega) kv2.1 hb2.1 (by omega)
        (by rw [← hbounds.2.2, ← hb2.2.2, heq2]))]
    rw [hsplithigh]
    rw [reparent_headers_mem (mk_chain t (H + 1 - t) fm) (c + 1) kv.2 bh0
      (List.mem_map_of_mem Prod.snd hkv)]
    simp

/-- Concrete instance of the reorg scenario: canonical chain over heights
0..2 (hashes 100+h), fork over heights 1..3 (hashes 200+h). -/
theorem c3_witness_reorg :
    (check_and_do_reorg (reorg_fork 1 2 (fun h => 200 + h) 1 [] [])
        (reorg_scenario_state 0 1 2 (fun h => 100 + h) (fun h => 200 + h) 1 1 [] [] [] []
          (fun _ => none) none 0)).1 = none ∧
    (check_and_do_reorg (reorg_fork 1 2 (fun h => 200 + h) 1 [] [])
        (reorg_scenario_state 0 1 2 (fun h => 100 + h) (fun h => 200 + h) 1 1 [] [] [] []
          (fun _ => none) none 0)).2.best_block = some 203 ∧
    (check_and_do_reorg (reorg_fork 1 2 (fun h => 200 + h) 1 [] [])
        (reorg_scenario_state 0 1 2 (fun h => 100 + h) (fun h => 200 + h) 1 1 [] [] [] []
          (fun _ => none) none 0)).2.best_block_height = 3 := by
  have h := c3_reorg_promotes 0 1 2 (fun h => 100 + h) (fun h => 200 + h) 1 1 [] [] [] []
    (fun _ => none) none 0 (by decide) (by decide) (by decide) (by decide) (by decide)
  obtain ⟨h1, _, _, _, _, h6, h7⟩ := h
  exact ⟨h1, h6, h7⟩
